import Mathlib

/-! Verification of the record-reconciliation engine of the Comparar-Nombres
repository (src/main.py, src/unidos.py, src/unidos2.py, src/documentos.py).

Strings are embedded as lists of Unicode code points (`Str := List Nat`).
Each Python function that the claims touch is translated into a Lean
definition of the same name; file-specific variants live in namespaces
named after their source file (`Unidos2`, `Unidos`, `Documentos`, `MainPy`).
All definitions are structurally recursive (fuel-based where Python used
unbounded loops), so they evaluate inside the kernel.
-/

/-- Strings as lists of Unicode code points. -/
abbrev Str := List Nat

/-- Convert a Lean string literal to the code-point embedding. -/
def lit (s : String) : Str := s.data.map Char.toNat

/-- Whitespace code points: the characters accepted by Python's `str.strip()`,
`str.split()` and the regex class `\s` that can occur in this pipeline
(ASCII whitespace, the ASCII separator block 28-31, NEL 133, NBSP 160). -/
def isSp (c : Nat) : Bool :=
  c == 9 || c == 10 || c == 11 || c == 12 || c == 13 ||
  c == 28 || c == 29 || c == 30 || c == 31 || c == 32 || c == 133 || c == 160

/-- ASCII digit predicate (regex class `[0-9]`). -/
def isDigitC (c : Nat) : Bool := decide (48 ≤ c) && decide (c ≤ 57)

/-- Uppercase ASCII letter predicate (regex class `[A-Z]`). -/
def isUpperAZ (c : Nat) : Bool := decide (65 ≤ c) && decide (c ≤ 90)

/-- Remove trailing whitespace (the right half of Python's `str.strip()`). -/
def dropTrail : Str → Str
  | [] => []
  | c :: t => if isSp c ∧ dropTrail t = [] then [] else c :: dropTrail t

/-- Python's `str.strip()`: drop leading and trailing whitespace. -/
def pyStrip (s : Str) : Str := dropTrail (s.dropWhile isSp)

/-- Python's `str.upper()`, restricted to the ASCII and Latin-1 letters this
pipeline can see: `a`-`z` and the accented Latin-1 range map down by 32
(skipping the division sign 247), `ß` expands to `SS`, `ÿ` maps to `Ÿ` (376);
all other code points are left unchanged. -/
def upperChar (c : Nat) : Str :=
  if 97 ≤ c ∧ c ≤ 122 then [c - 32]
  else if c = 223 then [83, 83]
  else if 224 ≤ c ∧ c ≤ 254 ∧ c ≠ 247 then [c - 32]
  else if c = 255 then [376]
  else [c]

def pyUpper (s : Str) : Str := s.flatMap upperChar

/-- Model of `unicodedata.normalize("NFKD", s).encode("ASCII", "ignore")` per code
point: ASCII survives unchanged; accented Latin letters decompose to their
base ASCII letter (the combining accent, being non-ASCII, is dropped); any
other non-ASCII code point has no ASCII-compatible decomposition here and is
dropped. -/
def asciiFold (c : Nat) : Str :=
  if c < 128 then [c]
  else if 192 ≤ c ∧ c ≤ 197 then [65]
  else if c = 199 then [67]
  else if 200 ≤ c ∧ c ≤ 203 then [69]
  else if 204 ≤ c ∧ c ≤ 207 then [73]
  else if c = 209 then [78]
  else if 210 ≤ c ∧ c ≤ 214 then [79]
  else if 217 ≤ c ∧ c ≤ 220 then [85]
  else if c = 221 then [89]
  else if 224 ≤ c ∧ c ≤ 229 then [97]
  else if c = 231 then [99]
  else if 232 ≤ c ∧ c ≤ 235 then [101]
  else if 236 ≤ c ∧ c ≤ 239 then [105]
  else if c = 241 then [110]
  else if 242 ≤ c ∧ c ≤ 246 then [111]
  else if 249 ≤ c ∧ c ≤ 252 then [117]
  else if c = 253 ∨ c = 255 then [121]
  else if c = 376 then [89]
  else []

def nfkdAscii (s : Str) : Str := s.flatMap asciiFold

/-- Model of `re.sub(r"[^A-Z\s]", "", s)`: keep only uppercase ASCII letters and
whitespace. -/
def soloLetras (s : Str) : Str := s.filter (fun c => isUpperAZ c || isSp c)

/-- Model of `re.sub(r"\s+", " ", s)`: collapse each maximal whitespace run to a
single space (32), working from the right (the collapsed tail starts with 32
exactly when the tail started inside a whitespace run). -/
def collapseWs : Str → Str
  | [] => []
  | c :: t =>
    let r := collapseWs t
    if isSp c then (if r.head? = some 32 then r else 32 :: r)
    else c :: r

/-- The function `normalizar_texto` (unidos2.py:82-90; identical to unidos.py:36-44 and
`normalizar` in main.py:33-48): strip, uppercase, NFKD-decompose and drop
non-ASCII, keep only `[A-Z\s]`, collapse whitespace runs, strip. -/
def normalizar_texto (s : Str) : Str :=
  pyStrip (collapseWs (soloLetras (nfkdAscii (pyUpper (pyStrip s)))))

/-- The function `normalizar_documento` (unidos2.py:98-102): `re.sub(r"[^0-9]", "", s)`,
keep only ASCII digits. -/
def normalizar_documento (s : Str) : Str := s.filter isDigitC

namespace Documentos

/-- The function `normalizar_documento` (documentos.py:30-38; identical in
unidos.py:46-51): keep only ASCII digits, then `.strip()`. -/
def normalizar_documento (s : Str) : Str := pyStrip (s.filter isDigitC)

end Documentos

/-! Idempotence infrastructure for the normalizers. -/

theorem dropTrail_idem (l : Str) : dropTrail (dropTrail l) = dropTrail l := by
  induction l with
  | nil => rfl
  | cons c t ih =>
    by_cases h : isSp c ∧ dropTrail t = []
    · simp [dropTrail, h]
    · rw [dropTrail, if_neg h, dropTrail, ih, if_neg h]

theorem dropWhile_head_false {p : Nat → Bool} {l : Str} {c : Nat} {t : Str}
    (h : l.dropWhile p = c :: t) : p c = false := by
  induction l with
  | nil => simp at h
  | cons d l ih =>
    rw [List.dropWhile_cons] at h
    by_cases hd : p d = true
    · exact ih (by simpa [hd] using h)
    · rw [if_neg hd] at h
      cases h
      exact eq_false_of_ne_true hd

theorem dropTrail_shape (c : Nat) (t : Str) :
    dropTrail (c :: t) = [] ∨ dropTrail (c :: t) = c :: dropTrail t := by
  by_cases h : isSp c ∧ dropTrail t = []
  · left; simp [dropTrail, h]
  · right; rw [dropTrail, if_neg h]

theorem pyStrip_idem (s : Str) : pyStrip (pyStrip s) = pyStrip s := by
  unfold pyStrip
  have hfix : (dropTrail (s.dropWhile isSp)).dropWhile isSp
      = dropTrail (s.dropWhile isSp) := by
    cases hx : s.dropWhile isSp with
    | nil => simp [dropTrail]
    | cons c t =>
      have hc : isSp c = false := dropWhile_head_false hx
      rcases dropTrail_shape c t with h | h
      · simp [h]
      · rw [h, List.dropWhile_cons, hc]; simp
  rw [hfix, dropTrail_idem]

theorem mem_dropTrail {c : Nat} {l : Str} (h : c ∈ dropTrail l) : c ∈ l := by
  induction l with
  | nil => simp [dropTrail] at h
  | cons d t ih =>
    by_cases hd : isSp d ∧ dropTrail t = []
    · rw [dropTrail, if_pos hd] at h; simp at h
    · rw [dropTrail, if_neg hd] at h
      rcases List.mem_cons.mp h with h | h
      · simp [h]
      · exact List.mem_cons_of_mem _ (ih h)

theorem mem_pyStrip {c : Nat} {s : Str} (h : c ∈ pyStrip s) : c ∈ s :=
  (List.dropWhile_sublist isSp).mem (mem_dropTrail h)

theorem mem_collapseWs {c : Nat} {s : Str} (h : c ∈ collapseWs s) :
    c = 32 ∨ (c ∈ s ∧ isSp c = false) := by
  induction s with
  | nil => simp [collapseWs] at h
  | cons d t ih =>
    have step : c = 32 ∨ c = d ∨ c ∈ collapseWs t := by
      rw [collapseWs] at h
      by_cases hd : isSp d = true
      · rw [if_pos hd] at h
        by_cases hh : (collapseWs t).head? = some 32
        · rw [if_pos hh] at h
          exact Or.inr (Or.inr h)
        · rw [if_neg hh] at h
          rcases List.mem_cons.mp h with h | h
          · exact Or.inl h
          · exact Or.inr (Or.inr h)
      · rw [if_neg hd] at h
        rcases List.mem_cons.mp h with h | h
        · exact Or.inr (Or.inl h)
        · exact Or.inr (Or.inr h)
    rcases step with h32 | hcd | hct
    · exact Or.inl h32
    · subst hcd
      by_cases hd : isSp c = true
      · rw [collapseWs, if_pos hd] at h
        by_cases hh : (collapseWs t).head? = some 32
        · rw [if_pos hh] at h
          rcases ih h with h' | ⟨hm, hs⟩
          · exact Or.inl h'
          · exact Or.inr ⟨List.mem_cons_of_mem _ hm, hs⟩
        · rw [if_neg hh] at h
          rcases List.mem_cons.mp h with h | h
          · exact Or.inl h
          · rcases ih h with h' | ⟨hm, hs⟩
            · exact Or.inl h'
            · exact Or.inr ⟨List.mem_cons_of_mem _ hm, hs⟩
      · exact Or.inr ⟨List.mem_cons_self _ _, by simpa using hd⟩
    · rcases ih hct with h' | ⟨hm, hs⟩
      · exact Or.inl h'
      · exact Or.inr ⟨List.mem_cons_of_mem _ hm, hs⟩

/-- No two adjacent whitespace characters. -/
def noAdjSp : Str → Prop
  | [] => True
  | [_] => True
  | c :: d :: t => ¬(isSp c = true ∧ isSp d = true) ∧ noAdjSp (d :: t)

theorem noAdjSp_nil : noAdjSp [] := by simp [noAdjSp]

theorem noAdjSp_single (c : Nat) : noAdjSp [c] := by simp [noAdjSp]

theorem noAdjSp_tail {c : Nat} {t : Str} (h : noAdjSp (c :: t)) : noAdjSp t := by
  cases t with
  | nil => exact noAdjSp_nil
  | cons d t => exact h.2

theorem noAdjSp_cons_of_head {c : Nat} {t : Str} (hc : isSp c = false)
    (ht : noAdjSp t) : noAdjSp (c :: t) := by
  cases t with
  | nil => exact noAdjSp_single c
  | cons d t => exact ⟨by simp [hc], ht⟩

theorem noAdjSp_collapseWs (s : Str) : noAdjSp (collapseWs s) := by
  induction s with
  | nil => exact noAdjSp_nil
  | cons c t ih =>
    rw [collapseWs]
    by_cases hc : isSp c = true
    · rw [if_pos hc]
      by_cases hh : (collapseWs t).head? = some 32
      · rw [if_pos hh]; exact ih
      · rw [if_neg hh]
        cases hr : collapseWs t with
        | nil => exact noAdjSp_single 32
        | cons e r =>
          have he : e ≠ 32 := by
            intro h32
            exact hh (by rw [hr, h32]; rfl)
          have hes : isSp e = false := by
            rcases mem_collapseWs (hr ▸ List.mem_cons_self e r) with h | ⟨_, hs⟩
            · exact absurd h he
            · exact hs
          exact ⟨by simp [hes], hr ▸ ih⟩
    · rw [if_neg hc]
      exact noAdjSp_cons_of_head (by simpa using hc) ih

theorem collapseWs_fixed (w : Str)
    (hc : ∀ c ∈ w, isSp c = true → c = 32) (ha : noAdjSp w) :
    collapseWs w = w := by
  induction w with
  | nil => rfl
  | cons c t ih =>
    have ht : collapseWs t = t :=
      ih (fun d hd => hc d (List.mem_cons_of_mem _ hd)) (noAdjSp_tail ha)
    rw [collapseWs]
    simp only [ht]
    by_cases hcc : isSp c = true
    · rw [if_pos hcc]
      have hc32 : c = 32 := hc c (List.mem_cons_self _ _) hcc
      subst hc32
      cases t with
      | nil => rfl
      | cons d t' =>
        have hd : isSp d = false := by
          by_contra hcon
          exact ha.1 ⟨hcc, by simpa using hcon⟩
        have hd32 : d ≠ 32 := fun h => by subst h; simp [isSp] at hd
        rw [if_neg (by simpa using hd32)]
    · rw [if_neg hcc]

theorem flatMap_id_of {f : Nat → Str} {l : Str}
    (h : ∀ c ∈ l, f c = [c]) : l.flatMap f = l := by
  induction l with
  | nil => rfl
  | cons c t ih =>
    rw [List.flatMap_cons, h c (List.mem_cons_self _ _),
      ih (fun d hd => h d (List.mem_cons_of_mem _ hd))]
    rfl

theorem normalizar_texto_chars {c : Nat} {s : Str}
    (h : c ∈ normalizar_texto s) : c = 32 ∨ (isUpperAZ c = true ∧ isSp c = false) := by
  have h1 := mem_pyStrip h
  rcases mem_collapseWs h1 with h2 | ⟨h2, hsp⟩
  · exact Or.inl h2
  · have := List.of_mem_filter h2
    simp only [Bool.or_eq_true] at this
    rcases this with hu | hs
    · exact Or.inr ⟨hu, hsp⟩
    · rw [hs] at hsp; simp at hsp

theorem noAdjSp_dropWhile {p : Nat → Bool} {l : Str} (h : noAdjSp l) :
    noAdjSp (l.dropWhile p) := by
  induction l with
  | nil => exact noAdjSp_nil
  | cons c t ih =>
    rw [List.dropWhile_cons]
    by_cases hc : p c = true
    · rw [if_pos hc]; exact ih (noAdjSp_tail h)
    · rw [if_neg hc]; exact h

theorem noAdjSp_dropTrail {l : Str} (h : noAdjSp l) : noAdjSp (dropTrail l) := by
  induction l with
  | nil => exact noAdjSp_nil
  | cons c t ih =>
    by_cases hcond : isSp c ∧ dropTrail t = []
    · rw [dropTrail, if_pos hcond]; exact noAdjSp_nil
    · rw [dropTrail, if_neg hcond]
      cases t with
      | nil => exact noAdjSp_single c
      | cons d t' =>
        rcases dropTrail_shape d t' with hs | hs
        · rw [hs]; exact noAdjSp_single c
        · rw [hs]
          exact ⟨h.1, hs ▸ ih (noAdjSp_tail h)⟩

theorem noAdjSp_normalizar_texto (s : Str) : noAdjSp (normalizar_texto s) :=
  noAdjSp_dropTrail (noAdjSp_dropWhile (noAdjSp_collapseWs _))

theorem normalizar_texto_fixed (w : Str)
    (hch : ∀ c ∈ w, c = 32 ∨ (isUpperAZ c = true ∧ isSp c = false))
    (hadj : noAdjSp w) (hst : pyStrip w = w) :
    normalizar_texto w = w := by
  have hupper : pyUpper w = w := by
    apply flatMap_id_of
    intro c hc
    rcases hch c hc with h | ⟨h, _⟩
    · subst h; rfl
    · simp only [isUpperAZ, Bool.and_eq_true, decide_eq_true_eq] at h
      rw [upperChar, if_neg (by omega), if_neg (by omega), if_neg (by omega),
        if_neg (by omega)]
  have hfold : nfkdAscii w = w := by
    apply flatMap_id_of
    intro c hc
    rcases hch c hc with h | ⟨h, _⟩
    · subst h; rfl
    · simp only [isUpperAZ, Bool.and_eq_true, decide_eq_true_eq] at h
      rw [asciiFold, if_pos (by omega)]
  have hfilter : soloLetras w = w := by
    apply List.filter_eq_self.mpr
    intro c hc
    rcases hch c hc with h | ⟨h, _⟩
    · subst h; simp [isSp]
    · simp [h]
  have hcoll : collapseWs w = w := by
    apply collapseWs_fixed w _ hadj
    intro c hc hsp
    rcases hch c hc with h | ⟨_, hns⟩
    · exact h
    · rw [hsp] at hns; cases hns
  rw [normalizar_texto, hst, hupper, hfold, hfilter, hcoll, hst]

theorem normalizar_texto_idem (s : Str) :
    normalizar_texto (normalizar_texto s) = normalizar_texto s := by
  apply normalizar_texto_fixed
  · intro c hc; exact normalizar_texto_chars hc
  · exact noAdjSp_normalizar_texto s
  · exact pyStrip_idem _

theorem normalizar_documento_idem (s : Str) :
    normalizar_documento (normalizar_documento s) = normalizar_documento s := by
  unfold normalizar_documento
  apply List.filter_eq_self.mpr
  intro c hc
  exact List.of_mem_filter hc

theorem dropTrail_of_no_sp {l : Str} (h : ∀ c ∈ l, isSp c = false) :
    dropTrail l = l := by
  induction l with
  | nil => rfl
  | cons c t ih =>
    rw [dropTrail, if_neg, ih (fun d hd => h d (List.mem_cons_of_mem _ hd))]
    intro ⟨h1, _⟩
    rw [h c (List.mem_cons_self _ _)] at h1
    cases h1

theorem pyStrip_of_no_sp {l : Str} (h : ∀ c ∈ l, isSp c = false) :
    pyStrip l = l := by
  cases l with
  | nil => rfl
  | cons d t =>
    rw [pyStrip, List.dropWhile_cons, if_neg (by simp [h d (List.mem_cons_self _ _)]),
      dropTrail_of_no_sp h]

theorem documentos_normalizar_documento_idem (s : Str) :
    Documentos.normalizar_documento (Documentos.normalizar_documento s)
      = Documentos.normalizar_documento s := by
  unfold Documentos.normalizar_documento
  have hdig : ∀ c ∈ pyStrip (s.filter isDigitC), isDigitC c = true := by
    intro c hc
    exact List.of_mem_filter (mem_pyStrip hc)
  rw [List.filter_eq_self.mpr hdig, pyStrip_idem]

/-- C9: both normalizers are idempotent. `normalizar_texto` (unidos2.py:82-90)
and `normalizar_documento` (unidos2.py:98-102) satisfy `f (f s) = f s` for
every string `s`; the documentos.py/unidos.py digit normalizer (which adds a
final `.strip()`) is idempotent as well. -/
theorem c9_normalizers_idempotent (s : Str) :
    normalizar_texto (normalizar_texto s) = normalizar_texto s
    ∧ normalizar_documento (normalizar_documento s) = normalizar_documento s
    ∧ Documentos.normalizar_documento (Documentos.normalizar_documento s)
        = Documentos.normalizar_documento s :=
  ⟨normalizar_texto_idem s, normalizar_documento_idem s,
    documentos_normalizar_documento_idem s⟩

/-! Models of Python's `str.split()` (split on whitespace runs, dropping empty tokens)
and `" ".join`, needed by the surname-first reordering. -/

/-- Worker for `splitWs`; `w` accumulates the current word in reverse. -/
def splitWsGo : Str → Str → List Str
  | [], w => if w = [] then [] else [w.reverse]
  | c :: t, w =>
    if isSp c then (if w = [] then splitWsGo t [] else w.reverse :: splitWsGo t [])
    else splitWsGo t (c :: w)

/-- Python `s.split()`. -/
def splitWs (s : Str) : List Str := splitWsGo s []

/-- Python `" ".join(ws)`. -/
def joinSp : List Str → Str
  | [] => []
  | [w] => w
  | w :: x :: ws => w ++ 32 :: joinSp (x :: ws)

/-- The function `invertir_nombre` (unidos.py:53-59, main.py:50-59; named
`invertir_nombre_si_correspondiente` in unidos2.py:104-109): split on
whitespace; with at least two tokens, emit the tokens from index `n / 2`
onward followed by the tokens before it, joined by single spaces; otherwise
return the input unchanged. -/
def invertir_nombre (nombre : Str) : Str :=
  if 2 ≤ (splitWs (pyStrip nombre)).length then
    joinSp ((splitWs (pyStrip nombre)).drop ((splitWs (pyStrip nombre)).length / 2)
      ++ (splitWs (pyStrip nombre)).take ((splitWs (pyStrip nombre)).length / 2))
  else nombre

theorem splitWsGo_words {s acc : Str} (hacc : ∀ c ∈ acc, isSp c = false) :
    ∀ w ∈ splitWsGo s acc, w ≠ [] ∧ ∀ c ∈ w, isSp c = false := by
  induction s generalizing acc with
  | nil =>
    intro w hw
    rw [splitWsGo] at hw
    by_cases ha : acc = []
    · rw [if_pos ha] at hw; simp at hw
    · rw [if_neg ha] at hw
      rcases List.mem_singleton.mp hw with rfl
      exact ⟨by simpa using ha, fun c hc => hacc c (List.mem_reverse.mp hc)⟩
  | cons c t ih =>
    intro w hw
    rw [splitWsGo] at hw
    by_cases hc : isSp c = true
    · rw [if_pos hc] at hw
      by_cases ha : acc = []
      · rw [if_pos ha] at hw
        exact ih (by simp) w hw
      · rw [if_neg ha] at hw
        rcases List.mem_cons.mp hw with rfl | hw
        · exact ⟨by simpa using ha, fun d hd => hacc d (List.mem_reverse.mp hd)⟩
        · exact ih (by simp) w hw
    · rw [if_neg hc] at hw
      refine ih ?_ w hw
      intro d hd
      rcases List.mem_cons.mp hd with rfl | hd
      · simpa using hc
      · exact hacc d hd

theorem splitWs_words {s : Str} :
    ∀ w ∈ splitWs s, w ≠ [] ∧ ∀ c ∈ w, isSp c = false :=
  splitWsGo_words (by simp)

theorem splitWsGo_word_append {w t acc : Str} (hw : ∀ c ∈ w, isSp c = false) :
    splitWsGo (w ++ t) acc = splitWsGo t (w.reverse ++ acc) := by
  induction w generalizing acc with
  | nil => simp
  | cons c w' ih =>
    have hc : isSp c = false := hw c (List.mem_cons_self _ _)
    rw [List.cons_append, splitWsGo, if_neg (by simp [hc]),
      ih (fun d hd => hw d (List.mem_cons_of_mem _ hd))]
    simp

theorem splitWs_joinSp {ws : List Str}
    (h : ∀ w ∈ ws, w ≠ [] ∧ ∀ c ∈ w, isSp c = false) :
    splitWs (joinSp ws) = ws := by
  induction ws with
  | nil => rfl
  | cons w rest ih =>
    cases rest with
    | nil =>
      have hw := h w (List.mem_cons_self _ _)
      rw [joinSp, splitWs, ← List.append_nil w,
        splitWsGo_word_append hw.2, splitWsGo]
      rw [if_neg (by simpa using hw.1)]
      simp
    | cons x rest' =>
      have hw := h w (List.mem_cons_self _ _)
      rw [joinSp, splitWs, splitWsGo_word_append hw.2, splitWsGo,
        if_pos (by simp [isSp]), if_neg (by simpa using hw.1)]
      have ihx : splitWs (joinSp (x :: rest')) = x :: rest' :=
        ih (fun v hv => h v (List.mem_cons_of_mem _ hv))
      rw [splitWs] at ihx
      rw [ihx]
      simp

/-- C7: the surname-first reordering splits on whitespace; with at least two
tokens the output's token list is the rotation placing the tokens from index
`n / 2` first (for 4 tokens `[A,B,C,D]` the result is `[C,D,A,B]`), and with
fewer than two tokens the input is returned unchanged
(invertir_nombre, unidos.py:53-59 / main.py:50-59 / unidos2.py:104-109). -/
theorem c7_surname_rotation (s : Str) :
    (2 ≤ (splitWs (pyStrip s)).length →
      splitWs (invertir_nombre s)
        = (splitWs (pyStrip s)).drop ((splitWs (pyStrip s)).length / 2)
          ++ (splitWs (pyStrip s)).take ((splitWs (pyStrip s)).length / 2))
    ∧ ((splitWs (pyStrip s)).length < 2 → invertir_nombre s = s) := by
  constructor
  · intro h
    rw [invertir_nombre, if_pos h]
    apply splitWs_joinSp
    intro w hw
    rcases List.mem_append.mp hw with hw | hw
    · exact splitWs_words w (List.drop_subset _ _ hw)
    · exact splitWs_words w (List.take_subset _ _ hw)
  · intro h
    rw [invertir_nombre, if_neg (by omega)]

/-- Witness for C7 at the concrete inputs of the specification:
four tokens rotate as `[A,B,C,D] -> [C,D,A,B]`, a single token is unchanged. -/
theorem c7_witness :
    splitWs (invertir_nombre (lit (r"A B C D")))
      = [lit (r"C"), lit (r"D"), lit (r"A"), lit (r"B")]
    ∧ invertir_nombre (lit (r"X")) = lit (r"X") := by
  constructor
  · rw [(c7_surname_rotation (lit (r"A B C D"))).1 (by decide)]
    decide
  · exact (c7_surname_rotation (lit (r"X"))).2 (by decide)

/-! The tier classifier (Similarity thresholds). -/

/-- Fixed threshold constants (unidos2.py:43-46). -/
def UMBRAL_EXACTA : Nat := 100

def UMBRAL_ALTA : Nat := 90

def UMBRAL_MEDIA : Nat := 70

def UMBRAL_BAJA : Nat := 50

/-- Match-status tiers. Constructors correspond to the source's status
strings: `exacta` = "EXACTA", `alta` = "ALTA", `media` = "MEDIA",
`baja` = "BAJA", `sin` = "SIN COINCIDENCIA", `vacio` = "DOCUMENTO VACIO" /
"NOMBRE PDF VACIO/INVALIDO", `falta` = "FALTA CERTIFICADO". -/
inductive Estado where
  | exacta
  | alta
  | media
  | baja
  | sin
  | vacio
  | falta
deriving DecidableEq

/-- The function `evaluar_similitud` (unidos2.py:111-121), returning the tier (the source
also formats the score into the display string and picks a cell color; the
quantitative content is the tier together with the separately kept score). -/
def evaluar_similitud (score : Nat) : Estado :=
  if score = UMBRAL_EXACTA then .exacta
  else if UMBRAL_ALTA ≤ score then .alta
  else if UMBRAL_MEDIA ≤ score then .media
  else if UMBRAL_BAJA ≤ score then .baja
  else .sin

namespace Unidos

/-- The inline threshold chain of comparar_nombres_fuzzy (unidos.py:146-155)
and comparar_documentos_exactos (unidos.py:185-192). -/
def clasifica (score : Nat) : Estado :=
  if score = 100 then .exacta
  else if 90 ≤ score then .alta
  else if 70 ≤ score then .media
  else if 50 ≤ score then .baja
  else .sin

end Unidos

/-- C2: the tier classifier maps 100 to EXACT, `[90,100)` to HIGH, `[70,90)`
to MEDIUM, `[50,70)` to LOW and `[0,50)` to NONE; the six boundary values
behave as specified; the thresholds are the named constants
`UMBRAL_EXACTA/ALTA/MEDIA/BAJA` = 100/90/70/50 (unidos2.py:43-46), and the
inline chain of unidos.py:146-155 agrees with `evaluar_similitud` at every
score. -/
theorem c2_tier_classifier :
    evaluar_similitud 100 = .exacta
    ∧ (∀ s, 90 ≤ s → s < 100 → evaluar_similitud s = .alta)
    ∧ (∀ s, 70 ≤ s → s < 90 → evaluar_similitud s = .media)
    ∧ (∀ s, 50 ≤ s → s < 70 → evaluar_similitud s = .baja)
    ∧ (∀ s, s < 50 → evaluar_similitud s = .sin)
    ∧ evaluar_similitud 90 = .alta ∧ evaluar_similitud 89 = .media
    ∧ evaluar_similitud 70 = .media ∧ evaluar_similitud 69 = .baja
    ∧ evaluar_similitud 50 = .baja ∧ evaluar_similitud 49 = .sin
    ∧ (UMBRAL_EXACTA, UMBRAL_ALTA, UMBRAL_MEDIA, UMBRAL_BAJA) = (100, 90, 70, 50)
    ∧ (∀ s, Unidos.clasifica s = evaluar_similitud s) := by
  refine ⟨rfl, ?_, ?_, ?_, ?_, rfl, rfl, rfl, rfl, rfl, rfl, rfl, ?_⟩
  · intro s h1 h2
    rw [evaluar_similitud, if_neg (by simp [UMBRAL_EXACTA]; omega),
      if_pos (by simpa [UMBRAL_ALTA] using h1)]
  · intro s h1 h2
    rw [evaluar_similitud, if_neg (by simp [UMBRAL_EXACTA]; omega),
      if_neg (by simp [UMBRAL_ALTA]; omega),
      if_pos (by simpa [UMBRAL_MEDIA] using h1)]
  · intro s h1 h2
    rw [evaluar_similitud, if_neg (by simp [UMBRAL_EXACTA]; omega),
      if_neg (by simp [UMBRAL_ALTA]; omega),
      if_neg (by simp [UMBRAL_MEDIA]; omega),
      if_pos (by simpa [UMBRAL_BAJA] using h1)]
  · intro s h1
    rw [evaluar_similitud, if_neg (by simp [UMBRAL_EXACTA]; omega),
      if_neg (by simp [UMBRAL_ALTA]; omega),
      if_neg (by simp [UMBRAL_MEDIA]; omega),
      if_neg (by simp [UMBRAL_BAJA]; omega)]
  · intro s
    rw [Unidos.clasifica, evaluar_similitud,
      UMBRAL_EXACTA, UMBRAL_ALTA, UMBRAL_MEDIA, UMBRAL_BAJA]

/-- Witness for C2: the interval clauses applied at 95, 75, 55 and 10. -/
theorem c2_witness :
    evaluar_similitud 95 = .alta ∧ evaluar_similitud 75 = .media
    ∧ evaluar_similitud 55 = .baja ∧ evaluar_similitud 10 = .sin :=
  ⟨c2_tier_classifier.2.1 95 (by omega) (by omega),
    c2_tier_classifier.2.2.1 75 (by omega) (by omega),
    c2_tier_classifier.2.2.2.1 55 (by omega) (by omega),
    c2_tier_classifier.2.2.2.2.1 10 (by omega)⟩

/-! The similarity scorer.  `fuzz.ratio` from fuzzywuzzy with the
python-Levenshtein backend: the substitution-cost-2 edit distance equals
`len(a)+len(b) - 2*LCS(a,b)`, so the ratio is `2*LCS/(len(a)+len(b))`,
scaled to 0-100 with Python's round-half-to-even; fuzzywuzzy's
`check_empty_string` decorator returns 0 when either string is empty. -/

/-- Longest common subsequence, fuel-based so it reduces in the kernel
(the fuel `len a + len b` always suffices). -/
def lcsF : Nat → Str → Str → Nat
  | 0, _, _ => 0
  | _ + 1, [], _ => 0
  | _ + 1, _ :: _, [] => 0
  | f + 1, a :: ta, b :: tb =>
    if a = b then lcsF f ta tb + 1
    else max (lcsF f (a :: ta) tb) (lcsF f ta (b :: tb))

def lcs (a b : Str) : Nat := lcsF (a.length + b.length) a b

/-- Python `int(round(num / den))`, rounding half to even. -/
def intr (num den : Nat) : Nat :=
  if 2 * (num % den) < den then num / den
  else if den < 2 * (num % den) then num / den + 1
  else if num / den % 2 = 0 then num / den else num / den + 1

def fuzzRatio (a b : Str) : Nat :=
  if a = [] ∨ b = [] then 0
  else intr (200 * lcs a b) (a.length + b.length)

theorem lcsF_le_left : ∀ (f : Nat) (a b : Str), lcsF f a b ≤ a.length := by
  intro f
  induction f with
  | zero => intro a b; simp [lcsF]
  | succ f ih =>
    intro a b
    cases a with
    | nil => simp [lcsF]
    | cons c ta =>
      cases b with
      | nil => simp [lcsF]
      | cons d tb =>
        rw [lcsF]
        by_cases h : c = d
        · rw [if_pos h]
          have := ih ta tb
          simpa using this
        · rw [if_neg h]
          have h1 := ih (c :: ta) tb
          have h2 := ih ta tb
          have h3 := ih ta (d :: tb)
          simp only [List.length_cons] at *
          omega

theorem lcsF_le_right : ∀ (f : Nat) (a b : Str), lcsF f a b ≤ b.length := by
  intro f
  induction f with
  | zero => intro a b; simp [lcsF]
  | succ f ih =>
    intro a b
    cases a with
    | nil => simp [lcsF]
    | cons c ta =>
      cases b with
      | nil => simp [lcsF]
      | cons d tb =>
        rw [lcsF]
        by_cases h : c = d
        · rw [if_pos h]
          have := ih ta tb
          simpa using this
        · rw [if_neg h]
          have h1 := ih (c :: ta) tb
          have h3 := ih ta (d :: tb)
          simp only [List.length_cons] at *
          omega

theorem lcsF_self : ∀ (v : Str) (f : Nat), 2 * v.length ≤ f → lcsF f v v = v.length := by
  intro v
  induction v with
  | nil => intro f _; cases f <;> simp [lcsF]
  | cons c t ih =>
    intro f hf
    cases f with
    | zero => simp at hf
    | succ f' =>
      rw [lcsF, if_pos rfl, ih f' (by simp at hf ⊢; omega)]
      simp

theorem lcs_self (v : Str) : lcs v v = v.length :=
  lcsF_self v _ (by omega)

theorem intr_le_100 {num den : Nat} (hden : 0 < den) (h : num ≤ 100 * den) :
    intr num den ≤ 100 := by
  have h2 : den * (num / den) + num % den = num := Nat.div_add_mod num den
  have h1 : num % den < den := Nat.mod_lt _ hden
  have hq : num / den ≤ 100 := by
    have hdd : num / den ≤ 100 * den / den := Nat.div_le_div_right h
    rwa [Nat.mul_div_cancel _ hden] at hdd
  rcases Nat.lt_or_ge (num / den) 100 with hlt | hge
  · unfold intr; split_ifs <;> omega
  · have hq100 : num / den = 100 := le_antisymm hq hge
    have hr0 : num % den = 0 := by rw [hq100] at h2; omega
    unfold intr
    rw [hr0, hq100, if_pos (by omega)]

theorem fuzzRatio_le_100 (a b : Str) : fuzzRatio a b ≤ 100 := by
  unfold fuzzRatio
  split_ifs with h
  · omega
  · push_neg at h
    obtain ⟨ha, hb⟩ := h
    have hla : 0 < a.length := List.length_pos.mpr ha
    apply intr_le_100 (by omega)
    have h1 : lcs a b ≤ a.length := lcsF_le_left _ a b
    have h2 : lcs a b ≤ b.length := lcsF_le_right _ a b
    omega

theorem fuzzRatio_self {v : Str} (hv : v ≠ []) : fuzzRatio v v = 100 := by
  unfold fuzzRatio
  rw [if_neg (by simp [hv])]
  have hlen : 0 < v.length := List.length_pos.mpr hv
  rw [lcs_self]
  have h200 : 200 * v.length = 100 * (v.length + v.length) := by ring
  unfold intr
  rw [h200, Nat.mul_mod_left, Nat.mul_div_cancel _ (by omega), if_pos (by omega)]

/-- The fuzzy-fallback loop (unidos2.py:208-214, unidos.py:176-183,
documentos.py:115-122): the best score starts at 0 with an empty best match
and is updated only on strictly greater similarity. -/
def mejorFuzzyGo (num : Str) : List Str → Nat → Str → Nat × Str
  | [], s, m => (s, m)
  | d :: rest, s, m =>
    if s < fuzzRatio num d then mejorFuzzyGo num rest (fuzzRatio num d) d
    else mejorFuzzyGo num rest s m

def mejorFuzzy (num : Str) (lst : List Str) : Nat × Str := mejorFuzzyGo num lst 0 []

/-- The maximum similarity of `num` against the entries of `lst` (0 when
`lst` is empty). -/
def maxSim (num : Str) (lst : List Str) : Nat :=
  lst.foldr (fun d a => max (fuzzRatio num d) a) 0

theorem mejorFuzzyGo_spec (num : Str) (lst : List Str) (s : Nat) (m : Str) :
    (mejorFuzzyGo num lst s m).1 = max s (maxSim num lst)
    ∧ ((mejorFuzzyGo num lst s m).1 = s → (mejorFuzzyGo num lst s m).2 = m)
    ∧ (s < (mejorFuzzyGo num lst s m).1 →
        ∃ pre post, lst = pre ++ (mejorFuzzyGo num lst s m).2 :: post
          ∧ fuzzRatio num (mejorFuzzyGo num lst s m).2 = (mejorFuzzyGo num lst s m).1
          ∧ ∀ d ∈ pre, fuzzRatio num d < (mejorFuzzyGo num lst s m).1) := by
  induction lst generalizing s m with
  | nil =>
    refine ⟨by simp [mejorFuzzyGo, maxSim], fun _ => rfl, fun h => ?_⟩
    simp [mejorFuzzyGo] at h
  | cons d rest ih =>
    rw [mejorFuzzyGo]
    by_cases hd : s < fuzzRatio num d
    · rw [if_pos hd]
      obtain ⟨ih1, ih2, ih3⟩ := ih (fuzzRatio num d) d
      have hcons : maxSim num (d :: rest) = max (fuzzRatio num d) (maxSim num rest) := rfl
      have hmax : (mejorFuzzyGo num rest (fuzzRatio num d) d).1
          = max s (maxSim num (d :: rest)) := by
        rw [ih1, hcons]
        omega
      refine ⟨hmax, ?_, ?_⟩
      · intro h
        exfalso
        rw [ih1] at h
        omega
      · intro _
        by_cases hR : (mejorFuzzyGo num rest (fuzzRatio num d) d).1 = fuzzRatio num d
        · refine ⟨[], rest, ?_, ?_, ?_⟩
          · rw [ih2 hR]; rfl
          · rw [ih2 hR, hR]
          · intro x hx; simp at hx
        · have hlt : fuzzRatio num d < (mejorFuzzyGo num rest (fuzzRatio num d) d).1 := by
            rw [ih1]; rw [ih1] at hR; omega
          obtain ⟨pre, post, hsplit, hratio, hpre⟩ := ih3 hlt
          refine ⟨d :: pre, post,
            by rw [List.cons_append]; exact congrArg (List.cons d) hsplit, hratio, ?_⟩
          intro x hx
          rcases List.mem_cons.mp hx with rfl | hx
          · omega
          · exact hpre x hx
    · rw [if_neg hd]
      push_neg at hd
      obtain ⟨ih1, ih2, ih3⟩ := ih s m
      have hcons : maxSim num (d :: rest) = max (fuzzRatio num d) (maxSim num rest) := rfl
      have hmax : (mejorFuzzyGo num rest s m).1 = max s (maxSim num (d :: rest)) := by
        rw [ih1, hcons]
        omega
      refine ⟨hmax, ih2, ?_⟩
      · intro h
        obtain ⟨pre, post, hsplit, hratio, hpre⟩ := ih3 h
        refine ⟨d :: pre, post,
          by rw [List.cons_append]; exact congrArg (List.cons d) hsplit, hratio, ?_⟩
        intro x hx
        rcases List.mem_cons.mp hx with rfl | hx
        · omega
        · exact hpre x hx

theorem mejorFuzzy_fst (num : Str) (lst : List Str) :
    (mejorFuzzy num lst).1 = maxSim num lst := by
  have := (mejorFuzzyGo_spec num lst 0 []).1
  rw [mejorFuzzy, this]
  omega

theorem mejorFuzzyGo_stay (num v : Str) (rest : List Str) :
    mejorFuzzyGo num rest 100 v = (100, v) := by
  induction rest with
  | nil => rfl
  | cons d t ih =>
    rw [mejorFuzzyGo, if_neg (by have := fuzzRatio_le_100 num d; omega)]
    exact ih

theorem mejorFuzzy_replicate_self {v : Str} (hv : v ≠ []) {k : Nat} (hk : 1 ≤ k) :
    mejorFuzzy v (List.replicate k v) = (100, v) := by
  cases k with
  | zero => omega
  | succ k' =>
    rw [List.replicate_succ, mejorFuzzy, mejorFuzzyGo,
      if_pos (by rw [fuzzRatio_self hv]; omega), fuzzRatio_self hv]
    exact mejorFuzzyGo_stay v v _

/-! The document reconcilers. -/

/-- One output row of the document comparison (the source's result-row
columns: file name, extracted number, document type, best Excel match,
similarity score, status). -/
structure DocRow where
  archivo : Str
  docPdf : Str
  tipoDoc : Str
  mejorMatch : Str
  similitud : Nat
  estado : Estado
deriving DecidableEq

namespace Unidos2

/-- Loop of `comparar_documentos_exactos` (unidos2.py:194-219): `copy` is the
mutable `documentos_excel_copy` (consumed entries removed by `list.remove`,
i.e. first occurrence), while `orig` is the unmodified `documentos_excel`
list that the fuzzy fallback at lines 208-214 scans. -/
def cdeGo : List (Str × Str × Str) → List Str → List Str → List DocRow
  | [], _, _ => []
  | (num, tipo, fn) :: rest, copy, orig =>
    if num = [] then
      ⟨fn, num, tipo, [], 0, .vacio⟩ :: cdeGo rest copy orig
    else if num ∈ copy then
      ⟨fn, num, tipo, num, 100, .exacta⟩ :: cdeGo rest (copy.erase num) orig
    else
      ⟨fn, num, tipo, (mejorFuzzy num orig).2, (mejorFuzzy num orig).1,
        evaluar_similitud (mejorFuzzy num orig).1⟩ :: cdeGo rest copy orig

/-- The function `comparar_documentos_exactos` (unidos2.py:194-219; unidos.py:161-196 is
the same algorithm with the status chain written inline). -/
def comparar_documentos_exactos (documentos_pdf : List (Str × Str × Str))
    (documentos_excel : List Str) : List DocRow :=
  cdeGo documentos_pdf documentos_excel documentos_excel

end Unidos2

namespace Documentos

/-- The function `encontrar_mejor_coincidencia` (documentos.py:107-133). -/
def encontrar_mejor_coincidencia (documento_pdf : Str)
    (documentos_excel : List Str) : Str × Nat × Estado :=
  if documento_pdf ∈ documentos_excel then (documento_pdf, 100, .exacta)
  else
    ((mejorFuzzy documento_pdf documentos_excel).2,
      (mejorFuzzy documento_pdf documentos_excel).1,
      if 90 ≤ (mejorFuzzy documento_pdf documentos_excel).1 then .alta
      else if 70 ≤ (mejorFuzzy documento_pdf documentos_excel).1 then .media
      else if 50 ≤ (mejorFuzzy documento_pdf documentos_excel).1 then .baja
      else .sin)

/-- Loop of `comparar_documentos_pdf_excel` (documentos.py:135-156): both the
exact check and the fuzzy fallback work on `documentos_excel_disponibles`,
and a score-100 match removes the value's first occurrence (`list.remove`).
(Python would raise `ValueError` if a fuzzy score of 100 occurred with the
value absent; `List.erase` is then a no-op — that path needs strings of
length about 100 and is unreachable in the scenarios proved below.) -/
def cdpeGo : List (Str × Str × Str) → List Str → List DocRow
  | [], _ => []
  | (num, tipo, fn) :: rest, disp =>
    if num = [] then
      ⟨fn, num, tipo, lit (r"DOCUMENTO VACIO"), 0, .vacio⟩ :: cdpeGo rest disp
    else
      (⟨fn, num, tipo, (encontrar_mejor_coincidencia num disp).1,
        (encontrar_mejor_coincidencia num disp).2.1,
        (encontrar_mejor_coincidencia num disp).2.2⟩ : DocRow) ::
      cdpeGo rest
        (if (encontrar_mejor_coincidencia num disp).2.1 = 100 then disp.erase num
         else disp)

/-- The function `comparar_documentos_pdf_excel` (documentos.py:135-156). -/
def comparar_documentos_pdf_excel (documentos_pdf : List (Str × Str × Str))
    (documentos_excel : List Str) : List DocRow :=
  cdpeGo documentos_pdf documentos_excel

end Documentos

theorem encontrar_nil (v : Str) :
    Documentos.encontrar_mejor_coincidencia v [] = ([], 0, Estado.sin) := by
  rw [Documentos.encontrar_mejor_coincidencia, if_neg (by simp)]
  simp [mejorFuzzy, mejorFuzzyGo]

theorem encontrar_mem {v : Str} {lst : List Str} (h : v ∈ lst) :
    Documentos.encontrar_mejor_coincidencia v lst = (v, 100, Estado.exacta) := by
  rw [Documentos.encontrar_mejor_coincidencia, if_pos h]

/-- C5: a record with an empty extracted value short-circuits: both document
reconcilers emit a score-0 row with the VACIO (empty) status and continue
with the roster state untouched, whatever the roster contains — no
similarity is computed and nothing is consumed (unidos2.py:199-201,
documentos.py:143-146). -/
theorem c5_empty_short_circuit (tipo fn : Str) (rest : List (Str × Str × Str))
    (copy orig disp : List Str) :
    Unidos2.cdeGo (([], tipo, fn) :: rest) copy orig
      = ⟨fn, [], tipo, [], 0, .vacio⟩ :: Unidos2.cdeGo rest copy orig
    ∧ Unidos2.comparar_documentos_exactos (([], tipo, fn) :: rest) orig
      = ⟨fn, [], tipo, [], 0, .vacio⟩ :: Unidos2.cdeGo rest orig orig
    ∧ Documentos.cdpeGo (([], tipo, fn) :: rest) disp
      = ⟨fn, [], tipo, lit (r"DOCUMENTO VACIO"), 0, .vacio⟩ :: Documentos.cdpeGo rest disp
    ∧ Documentos.comparar_documentos_pdf_excel (([], tipo, fn) :: rest) disp
      = ⟨fn, [], tipo, lit (r"DOCUMENTO VACIO"), 0, .vacio⟩
          :: Documentos.cdpeGo rest disp := by
  refine ⟨?_, ?_, ?_, ?_⟩ <;>
    simp [Unidos2.cdeGo, Unidos2.comparar_documentos_exactos,
      Documentos.cdpeGo, Documentos.comparar_documentos_pdf_excel]

/-- C1 counterexample: in `comparar_documentos_exactos` (unidos2.py) with
roster `["123"]` and two records both extracting "123", the second record
also receives score 100, EXACT status and matched value "123" — through the
fuzzy path, which rescans the unmodified roster — so a later duplicate does
re-claim the consumed entry as an exact match, contrary to the claim. -/
theorem c1_counterexample :
    (Unidos2.comparar_documentos_exactos
        [(lit (r"123"), lit (r"CC"), lit (r"a.pdf")),
         (lit (r"123"), lit (r"CC"), lit (r"b.pdf"))]
        [lit (r"123")]).map (fun row => (row.similitud, row.estado, row.mejorMatch))
      = [(100, Estado.exacta, lit (r"123")), (100, Estado.exacta, lit (r"123"))] := by
  decide

/-- C1 amended: with a single-entry roster `[v]` and two records extracting
the same non-empty `v`, the first record takes the exact branch (score 100,
match `v`) and consumes the entry, and the second record falls through to
the fuzzy path; in `comparar_documentos_pdf_excel` (documentos.py), whose
fallback scans only the still-available entries, the second record gets
score 0 / no match, while in `comparar_documentos_exactos` (unidos2.py),
whose fallback scans the full roster, it still reports 100 / EXACT / `v`. -/
theorem c1_amended (v t1 t2 f1 f2 : Str) (hv : v ≠ []) :
    Documentos.comparar_documentos_pdf_excel [(v, t1, f1), (v, t2, f2)] [v]
      = [⟨f1, v, t1, v, 100, .exacta⟩, ⟨f2, v, t2, [], 0, .sin⟩]
    ∧ Unidos2.comparar_documentos_exactos [(v, t1, f1), (v, t2, f2)] [v]
      = [⟨f1, v, t1, v, 100, .exacta⟩, ⟨f2, v, t2, v, 100, .exacta⟩] := by
  constructor
  · have h1 : Documentos.encontrar_mejor_coincidencia v [v] = (v, 100, Estado.exacta) :=
      encontrar_mem (List.mem_singleton.mpr rfl)
    simp [Documentos.comparar_documentos_pdf_excel, Documentos.cdpeGo, hv, h1,
      encontrar_nil]
  · have h2 : mejorFuzzy v [v] = (100, v) := by
      have h1 := @mejorFuzzy_replicate_self v hv 1 (by omega)
      simpa using h1
    simp [Unidos2.comparar_documentos_exactos, Unidos2.cdeGo, hv, h2,
      evaluar_similitud, UMBRAL_EXACTA]

/-- Witness for C1 at `v = "123"`. -/
theorem c1_witness :
    Documentos.comparar_documentos_pdf_excel
        [(lit (r"123"), lit (r"CC"), lit (r"a.pdf")),
         (lit (r"123"), lit (r"CC"), lit (r"b.pdf"))] [lit (r"123")]
      = [⟨lit (r"a.pdf"), lit (r"123"), lit (r"CC"), lit (r"123"), 100, .exacta⟩,
         ⟨lit (r"b.pdf"), lit (r"123"), lit (r"CC"), [], 0, .sin⟩]
    ∧ Unidos2.comparar_documentos_exactos
        [(lit (r"123"), lit (r"CC"), lit (r"a.pdf")),
         (lit (r"123"), lit (r"CC"), lit (r"b.pdf"))] [lit (r"123")]
      = [⟨lit (r"a.pdf"), lit (r"123"), lit (r"CC"), lit (r"123"), 100, .exacta⟩,
         ⟨lit (r"b.pdf"), lit (r"123"), lit (r"CC"), lit (r"123"), 100, .exacta⟩] :=
  c1_amended (lit (r"123")) (lit (r"CC")) (lit (r"CC")) (lit (r"a.pdf"))
    (lit (r"b.pdf")) (by decide)

/-- C3 counterexample: in `comparar_documentos_pdf_excel` (documentos.py)
with roster `["123"]` and two records both extracting "123", the second
record reports score 0 even though the maximum similarity over ALL roster
entries is 100 (the consumed "123" itself) — the documentos.py fallback
scans only the still-available entries, not every roster entry. -/
theorem c3_counterexample :
    (Documentos.comparar_documentos_pdf_excel
        [(lit (r"123"), lit (r"CC"), lit (r"a.pdf")),
         (lit (r"123"), lit (r"CC"), lit (r"b.pdf"))]
        [lit (r"123")]).map (fun row => row.similitud) = [100, 0]
    ∧ maxSim (lit (r"123")) [lit (r"123")] = 100 := by
  decide

/-- C3 amended: the fuzzy fallback loop reports the maximum similarity over
the list it is given, ties keeping the first entry in scan order (an empty
or all-zero scan leaves the match empty); in `comparar_documentos_exactos`
(unidos2.py) that list is the full original roster, consumed entries
included, while in `comparar_documentos_pdf_excel` (documentos.py) it is
only the still-available list. -/
theorem c3_amended :
    (∀ num lst, (mejorFuzzy num lst).1 = maxSim num lst)
    ∧ (∀ num lst, (mejorFuzzy num lst).1 = 0 → (mejorFuzzy num lst).2 = [])
    ∧ (∀ num lst, 0 < (mejorFuzzy num lst).1 →
        ∃ pre post, lst = pre ++ (mejorFuzzy num lst).2 :: post
          ∧ fuzzRatio num (mejorFuzzy num lst).2 = (mejorFuzzy num lst).1
          ∧ ∀ d ∈ pre, fuzzRatio num d < (mejorFuzzy num lst).1)
    ∧ (∀ docs excel, Unidos2.comparar_documentos_exactos docs excel
        = Unidos2.cdeGo docs excel excel)
    ∧ (∀ num tipo fn rest copy orig, num ≠ [] → num ∉ copy →
        Unidos2.cdeGo ((num, tipo, fn) :: rest) copy orig
          = ⟨fn, num, tipo, (mejorFuzzy num orig).2, (mejorFuzzy num orig).1,
              evaluar_similitud (mejorFuzzy num orig).1⟩ :: Unidos2.cdeGo rest copy orig)
    ∧ (∀ num disp, num ∉ disp →
        Documentos.encontrar_mejor_coincidencia num disp
          = ((mejorFuzzy num disp).2, (mejorFuzzy num disp).1,
              if 90 ≤ (mejorFuzzy num disp).1 then .alta
              else if 70 ≤ (mejorFuzzy num disp).1 then .media
              else if 50 ≤ (mejorFuzzy num disp).1 then .baja
              else .sin)) := by
  refine ⟨mejorFuzzy_fst, ?_, ?_, fun _ _ => rfl, ?_, ?_⟩
  · intro num lst h
    exact (mejorFuzzyGo_spec num lst 0 []).2.1 h
  · intro num lst h
    exact (mejorFuzzyGo_spec num lst 0 []).2.2 h
  · intro num tipo fn rest copy orig hnum hmem
    rw [Unidos2.cdeGo, if_neg hnum, if_neg hmem]
  · intro num disp hmem
    rw [Documentos.encontrar_mejor_coincidencia, if_neg hmem]

/-- Witness for C3: the tie-break clause and the no-exact-match row shape at
concrete inputs. -/
theorem c3_witness :
    (∃ pre post,
        [lit (r"123")] = pre ++ (mejorFuzzy (lit (r"123")) [lit (r"123")]).2 :: post
        ∧ fuzzRatio (lit (r"123")) (mejorFuzzy (lit (r"123")) [lit (r"123")]).2
            = (mejorFuzzy (lit (r"123")) [lit (r"123")]).1
        ∧ ∀ d ∈ pre, fuzzRatio (lit (r"123")) d
            < (mejorFuzzy (lit (r"123")) [lit (r"123")]).1)
    ∧ Unidos2.cdeGo [(lit (r"9"), lit (r"CC"), lit (r"f.pdf"))] [] [lit (r"123")]
        = ⟨lit (r"f.pdf"), lit (r"9"), lit (r"CC"),
            (mejorFuzzy (lit (r"9")) [lit (r"123")]).2,
            (mejorFuzzy (lit (r"9")) [lit (r"123")]).1,
            evaluar_similitud (mejorFuzzy (lit (r"9")) [lit (r"123")]).1⟩
          :: Unidos2.cdeGo [] [] [lit (r"123")] :=
  ⟨c3_amended.2.2.1 (lit (r"123")) [lit (r"123")] (by decide),
   c3_amended.2.2.2.2.1 (lit (r"9")) (lit (r"CC")) (lit (r"f.pdf")) [] []
     [lit (r"123")] (by decide) (by decide)⟩

/-- C10 counterexample: in `comparar_documentos_exactos` (unidos2.py) with
two roster copies of "5" and three records extracting "5", the third record
(the `(k+1)`-th) also reports score 100 with EXACT status through the fuzzy
path, contrary to the claim that it does not receive an exact match. -/
theorem c10_counterexample :
    (Unidos2.comparar_documentos_exactos
        (List.replicate 3 (lit (r"5"), lit (r"CC"), lit (r"f.pdf")))
        (List.replicate 2 (lit (r"5")))).map (fun row => (row.similitud, row.estado))
      = [(100, Estado.exacta), (100, Estado.exacta), (100, Estado.exacta)] := by
  decide

theorem cdpeGo_replicate {v t f : Str} (hv : v ≠ []) :
    ∀ n m : Nat,
      Documentos.cdpeGo (List.replicate n (v, t, f)) (List.replicate m v)
        = List.replicate (min n m) ⟨f, v, t, v, 100, .exacta⟩
          ++ List.replicate (n - m) ⟨f, v, t, [], 0, .sin⟩ := by
  intro n
  induction n with
  | zero => intro m; simp [Documentos.cdpeGo]
  | succ n ih =>
    intro m
    cases m with
    | zero =>
      have ih0 := ih 0
      simp only [List.replicate_zero, Nat.min_zero, Nat.sub_zero, List.nil_append] at ih0
      simp [List.replicate_succ, Documentos.cdpeGo, hv, encontrar_nil, ih0]
    | succ m =>
      have ihm := ih m
      have hmem : Documentos.encontrar_mejor_coincidencia v (v :: List.replicate m v)
          = (v, 100, Estado.exacta) := encontrar_mem (List.mem_cons_self _ _)
      simp [List.replicate_succ, Documentos.cdpeGo, hv, hmem, ihm,
        Nat.succ_min_succ, Nat.succ_sub_succ]

theorem cdeGo_replicate {v t f : Str} (hv : v ≠ []) {orig : List Str}
    (horig : mejorFuzzy v orig = (100, v)) :
    ∀ n m : Nat,
      Unidos2.cdeGo (List.replicate n (v, t, f)) (List.replicate m v) orig
        = List.replicate n ⟨f, v, t, v, 100, .exacta⟩ := by
  intro n
  induction n with
  | zero => intro m; simp [Unidos2.cdeGo]
  | succ n ih =>
    intro m
    cases m with
    | zero =>
      have ih0 := ih 0
      simp only [List.replicate_zero] at ih0
      simp [List.replicate_succ, Unidos2.cdeGo, hv, horig, ih0,
        evaluar_similitud, UMBRAL_EXACTA]
    | succ m =>
      have ihm := ih m
      simp [List.replicate_succ, Unidos2.cdeGo, hv, ihm]

/-- C10 amended: with `k` duplicate roster entries `v` and `k + 1` records
extracting `v`, each exact match consumes exactly one entry (the first still
available, Python `list.remove`), so the first `k` records are matched
through the exact branch; the `(k+1)`-th is not matched through the exact
branch and consumes nothing — in `comparar_documentos_pdf_excel`
(documentos.py) it reports score 0 / no match, but in
`comparar_documentos_exactos` (unidos2.py, likewise unidos.py) its fuzzy
fallback rescans the full roster and still reports 100 / EXACT. -/
theorem c10_amended (v t f : Str) (k : Nat) (hv : v ≠ []) (hk : 2 ≤ k) :
    Documentos.comparar_documentos_pdf_excel (List.replicate (k + 1) (v, t, f))
        (List.replicate k v)
      = List.replicate k ⟨f, v, t, v, 100, .exacta⟩ ++ [⟨f, v, t, [], 0, .sin⟩]
    ∧ Unidos2.comparar_documentos_exactos (List.replicate (k + 1) (v, t, f))
        (List.replicate k v)
      = List.replicate (k + 1) ⟨f, v, t, v, 100, .exacta⟩ := by
  constructor
  · rw [Documentos.comparar_documentos_pdf_excel, cdpeGo_replicate hv (k + 1) k,
      Nat.min_eq_right (by omega), Nat.succ_sub (by omega), Nat.sub_self]
    rfl
  · rw [Unidos2.comparar_documentos_exactos,
      cdeGo_replicate hv (mejorFuzzy_replicate_self hv (by omega)) (k + 1) k]

/-- Witness for C10 at `v = "5"`, `k = 2`. -/
theorem c10_witness :
    Documentos.comparar_documentos_pdf_excel
        (List.replicate 3 (lit (r"5"), lit (r"CC"), lit (r"f.pdf")))
        (List.replicate 2 (lit (r"5")))
      = List.replicate 2
          ⟨lit (r"f.pdf"), lit (r"5"), lit (r"CC"), lit (r"5"), 100, .exacta⟩
        ++ [⟨lit (r"f.pdf"), lit (r"5"), lit (r"CC"), [], 0, .sin⟩]
    ∧ Unidos2.comparar_documentos_exactos
        (List.replicate 3 (lit (r"5"), lit (r"CC"), lit (r"f.pdf")))
        (List.replicate 2 (lit (r"5")))
      = List.replicate 3
          ⟨lit (r"f.pdf"), lit (r"5"), lit (r"CC"), lit (r"5"), 100, .exacta⟩ :=
  c10_amended (lit (r"5")) (lit (r"CC")) (lit (r"f.pdf")) 2 (by decide) (by omega)

/-! The name reconcilers. -/

/-- Python `list.index` (first index of `x`; `none` models `ValueError`). -/
def pyIndex (x : Str) : List Str → Option Nat
  | [] => none
  | e :: t => if e = x then some 0 else (pyIndex x t).map (· + 1)

namespace Unidos

/-- One output row of the name comparison (unidos.py:118-159): original PDF
name, best Excel match, score, status. -/
structure NomRow where
  nombrePdf : Str
  mejorMatch : Str
  score : Nat
  estado : Estado
deriving DecidableEq

/-- The fuzzy loop of `comparar_nombres_fuzzy` (unidos.py:138-144; the same
loop appears at main.py:150-156): iterate over the (original, normalized)
roster pairs, skip empty normalized entries, keep the strictly best score
together with the original Excel name. -/
def mejorNomGo (n : Str) : List (Str × Str) → Nat → Str → Nat × Str
  | [], s, m => (s, m)
  | (orig, en) :: rest, s, m =>
    if en = [] then mejorNomGo n rest s m
    else if s < fuzzRatio n en then mejorNomGo n rest (fuzzRatio n en) orig
    else mejorNomGo n rest s m

/-- One iteration of the loop of `comparar_nombres_fuzzy` (unidos.py:123-157):
empty normalized name short-circuits; otherwise `list.index` on the
normalized roster gives an exact match, else the fuzzy loop runs. -/
def filaNombre (excel norms : List Str) (orig : Str) : NomRow :=
  if normalizar_texto orig = [] then
    ⟨orig, lit (r"NOMBRE PDF VACIO/INVALIDO"), 0, .vacio⟩
  else
    match pyIndex (normalizar_texto orig) norms with
    | some i => ⟨orig, excel.getD i [], 100, clasifica 100⟩
    | none =>
      ⟨orig, (mejorNomGo (normalizar_texto orig) (excel.zip norms) 0 []).2,
        (mejorNomGo (normalizar_texto orig) (excel.zip norms) 0 []).1,
        clasifica (mejorNomGo (normalizar_texto orig) (excel.zip norms) 0 []).1⟩

def cnfGo (excel norms : List Str) : List Str → List NomRow
  | [] => []
  | p :: rest => filaNombre excel norms p :: cnfGo excel norms rest

/-- The function `comparar_nombres_fuzzy` (unidos.py:118-159); the roster normalization is
computed once before the loop (unidos.py:121). -/
def comparar_nombres_fuzzy (nombres_pdf nombres_excel : List Str) : List NomRow :=
  cnfGo nombres_excel (nombres_excel.map normalizar_texto) nombres_pdf

end Unidos

namespace MainPy

/-- Status markers of main.py:159-161: `ok` = "✔", `parcial` = "⚠️ (s%)",
`nada` = "❌". -/
inductive EstadoM where
  | ok
  | parcial
  | nada
deriving DecidableEq

structure NomRowM where
  nombrePdf : Str
  mejorMatch : Str
  score : Nat
  estado : EstadoM
deriving DecidableEq

/-- The status computation of main.py:158-161: "✔" when the score is 100,
overwritten by "⚠️ (s%)" when 0 < score < 100, else "❌". -/
def estadoM (score : Nat) : EstadoM :=
  if 0 < score ∧ score < 100 then .parcial
  else if score = 100 then .ok
  else .nada

/-- One iteration of the loop of `comparar_nombres_pdf_excel`
(main.py:133-165); `normalizar` (main.py:33-48) is the same pipeline as
`normalizar_texto`, and the fuzzy loop (main.py:150-156) is the same loop as
unidos.py's `mejorNomGo`. -/
def filaNombreM (excel norms : List Str) (orig : Str) : NomRowM :=
  if normalizar_texto orig = [] then
    ⟨orig, lit (r"NOMBRE PDF VACIO/INVALIDO"), 0, .nada⟩
  else
    match pyIndex (normalizar_texto orig) norms with
    | some i => ⟨orig, excel.getD i [], 100, estadoM 100⟩
    | none =>
      ⟨orig, (Unidos.mejorNomGo (normalizar_texto orig) (excel.zip norms) 0 []).2,
        (Unidos.mejorNomGo (normalizar_texto orig) (excel.zip norms) 0 []).1,
        estadoM (Unidos.mejorNomGo (normalizar_texto orig) (excel.zip norms) 0 []).1⟩

def cnfmGo (excel norms : List Str) : List Str → List NomRowM
  | [] => []
  | p :: rest => filaNombreM excel norms p :: cnfmGo excel norms rest

/-- The function `comparar_nombres_pdf_excel` (main.py:125-167). -/
def comparar_nombres_pdf_excel (nombres_pdf nombres_excel : List Str) :
    List NomRowM :=
  cnfmGo nombres_excel (nombres_excel.map normalizar_texto) nombres_pdf

end MainPy

theorem pyIndex_map_spec {f : Str → Str} {x : Str} {excel : List Str}
    (h : x ∈ excel.map f) :
    ∃ i e, pyIndex x (excel.map f) = some i ∧ e ∈ excel
      ∧ excel.getD i [] = e ∧ f e = x := by
  induction excel with
  | nil => simp at h
  | cons c t ih =>
    by_cases hc : f c = x
    · exact ⟨0, c, by simp [pyIndex, hc], List.mem_cons_self _ _, rfl, hc⟩
    · have hx : x ∈ t.map f := by
        rw [List.map_cons] at h
        rcases List.mem_cons.mp h with h | h
        · exact absurd h.symm hc
        · exact h
      obtain ⟨i, e, h1, h2, h3, h4⟩ := ih hx
      exact ⟨i + 1, e, by simp [pyIndex, hc, h1], List.mem_cons_of_mem _ h2,
        by rw [List.getD_cons_succ]; exact h3, h4⟩

/-- C4: NAME matching never consumes a roster entry: both name reconcilers
are pure maps of a per-record function over the extracted names (the roster
lists are never modified, so there is no availability state to change), and
any two records with equal non-empty normalized value present in the
normalized roster independently resolve to the same roster entry — the one
at the first matching index — with score 100 and EXACT status
(comparar_nombres_fuzzy, unidos.py:118-159; comparar_nombres_pdf_excel,
main.py:125-167). -/
theorem c4_name_no_consumption :
    (∀ pdfs excel, Unidos.comparar_nombres_fuzzy pdfs excel
        = pdfs.map (Unidos.filaNombre excel (excel.map normalizar_texto)))
    ∧ (∀ pdfs excel, MainPy.comparar_nombres_pdf_excel pdfs excel
        = pdfs.map (MainPy.filaNombreM excel (excel.map normalizar_texto)))
    ∧ (∀ excel a b,
        normalizar_texto a = normalizar_texto b →
        normalizar_texto a ≠ [] →
        normalizar_texto a ∈ excel.map normalizar_texto →
        ∃ e, e ∈ excel
          ∧ Unidos.filaNombre excel (excel.map normalizar_texto) a
              = ⟨a, e, 100, Estado.exacta⟩
          ∧ Unidos.filaNombre excel (excel.map normalizar_texto) b
              = ⟨b, e, 100, Estado.exacta⟩
          ∧ MainPy.filaNombreM excel (excel.map normalizar_texto) a
              = ⟨a, e, 100, MainPy.EstadoM.ok⟩
          ∧ MainPy.filaNombreM excel (excel.map normalizar_texto) b
              = ⟨b, e, 100, MainPy.EstadoM.ok⟩) := by
  refine ⟨?_, ?_, ?_⟩
  · intro pdfs excel
    induction pdfs with
    | nil => rfl
    | cons p rest ih =>
      rw [List.map_cons, ← ih]
      rfl
  · intro pdfs excel
    induction pdfs with
    | nil => rfl
    | cons p rest ih =>
      rw [List.map_cons, ← ih]
      rfl
  · intro excel a b hab hne hmem
    obtain ⟨i, e, h1, h2, h3, h4⟩ := pyIndex_map_spec hmem
    have h3' : excel[i]?.getD ([] : Str) = e := by
      rw [← h3]; simp [List.getD]
    refine ⟨e, h2, ?_, ?_, ?_, ?_⟩
    · rw [Unidos.filaNombre, if_neg hne, h1]
      simp [h3', Unidos.clasifica]
    · rw [Unidos.filaNombre, ← hab, if_neg hne, h1]
      simp [h3', Unidos.clasifica]
    · rw [MainPy.filaNombreM, if_neg hne, h1]
      simp [h3', MainPy.estadoM]
    · rw [MainPy.filaNombreM, ← hab, if_neg hne, h1]
      simp [h3', MainPy.estadoM]

/-- Witness for C4: two records normalizing to "ANA" against the one-entry
roster `["ANA"]`. -/
theorem c4_witness :
    ∃ e, e ∈ [lit (r"ANA")]
      ∧ Unidos.filaNombre [lit (r"ANA")] ([lit (r"ANA")].map normalizar_texto)
          (lit (r"ANA")) = ⟨lit (r"ANA"), e, 100, Estado.exacta⟩
      ∧ Unidos.filaNombre [lit (r"ANA")] ([lit (r"ANA")].map normalizar_texto)
          (lit (r" ANA")) = ⟨lit (r" ANA"), e, 100, Estado.exacta⟩
      ∧ MainPy.filaNombreM [lit (r"ANA")] ([lit (r"ANA")].map normalizar_texto)
          (lit (r"ANA")) = ⟨lit (r"ANA"), e, 100, MainPy.EstadoM.ok⟩
      ∧ MainPy.filaNombreM [lit (r"ANA")] ([lit (r"ANA")].map normalizar_texto)
          (lit (r" ANA")) = ⟨lit (r" ANA"), e, 100, MainPy.EstadoM.ok⟩ :=
  c4_name_no_consumption.2.2 [lit (r"ANA")] (lit (r"ANA")) (lit (r" ANA"))
    (by decide) (by decide) (by decide)

/-! The model of fuzzywuzzy's `token_sort_ratio`: full-process both strings (non-word
characters become spaces, lowercase, strip), sort the whitespace tokens,
join with single spaces, then apply `fuzz.ratio`. -/

/-- Word characters for fuzzywuzzy's full_process (regex `\w`, Unicode:
ASCII letters, digits, underscore; non-ASCII code points count as word
characters). -/
def isWordC (c : Nat) : Bool :=
  isDigitC c || isUpperAZ c || (decide (97 ≤ c) && decide (c ≤ 122)) || c == 95
    || decide (128 ≤ c)

/-- Python `str.lower()` on the same character range as `upperChar`. -/
def lowerChar (c : Nat) : Nat :=
  if 65 ≤ c ∧ c ≤ 90 then c + 32
  else if 192 ≤ c ∧ c ≤ 222 ∧ c ≠ 215 then c + 32
  else if c = 376 then 255
  else c

/-- Lexicographic order on code-point strings (Python string comparison). -/
def strLe : Str → Str → Bool
  | [], _ => true
  | _ :: _, [] => false
  | c :: cs, d :: ds => if c < d then true else if d < c then false else strLe cs ds

def insertSorted (w : Str) : List Str → List Str
  | [] => [w]
  | x :: xs => if strLe w x then w :: x :: xs else x :: insertSorted w xs

/-- Python `sorted` on strings (insertion sort; equal strings are
identical, so stability is not observable). -/
def sortStrs : List Str → List Str
  | [] => []
  | w :: ws => insertSorted w (sortStrs ws)

/-- fuzzywuzzy `utils.full_process`: replace non-word characters by spaces,
lowercase, strip. -/
def full_process (s : Str) : Str :=
  pyStrip ((s.map (fun c => if isWordC c then c else 32)).map lowerChar)

def token_sort (s : Str) : Str :=
  pyStrip (joinSp (sortStrs (splitWs (full_process s))))

def token_sort_ratio (a b : Str) : Nat := fuzzRatio (token_sort a) (token_sort b)

namespace Unidos2

/-- One output row of unidos2.py's name comparison (columns "Nombre PDF",
"Mejor Coincidencia Excel", "Porcentaje Similitud", "Estado"). -/
structure NomRow2 where
  nombrePdf : Str
  mejorMatch : Str
  score : Nat
  estado : Estado
deriving DecidableEq

/-- The loop of comparar_nombres_fuzzy (unidos2.py:167-171): best score
starts at -1 with no match (`None`), updated on strictly greater
token-sort similarity. -/
def mejorTokGo (pn : Str) : List (Str × Str) → Int × Option Str → Int × Option Str
  | [], b => b
  | (orig, en) :: rest, b =>
    if b.1 < (token_sort_ratio pn en : Int) then
      mejorTokGo pn rest ((token_sort_ratio pn en : Int), some orig)
    else mejorTokGo pn rest b

/-- One per-record row of comparar_nombres_fuzzy (unidos2.py:162-179):
the reported score is `mejor_score` clamped below by 0, the match column is
`mejor_match or "—"` (em dash for `None` or an empty best match). -/
def filaNombre2 (excel norms : List Str) (p : Str) : NomRow2 :=
  let b := mejorTokGo (normalizar_texto p) (excel.zip norms) (-1, none)
  let score : Nat := if 0 ≤ b.1 then b.1.toNat else 0
  let m : Str :=
    match b.2 with
    | none => lit (r"—")
    | some e => if e = [] then lit (r"—") else e
  ⟨p, m, score, evaluar_similitud score⟩

/-- The coverage test of comparar_nombres_fuzzy (unidos2.py:184): does any
extracted name reach the HIGH threshold against this roster entry? -/
def cubierto (pdfs : List Str) (en : Str) : Bool :=
  pdfs.any (fun p => decide (UMBRAL_ALTA ≤ token_sort_ratio en (normalizar_texto p)))

/-- A "FALTA CERTIFICADO" row (unidos2.py:185-190). -/
def filaFalta (e : Str) : NomRow2 := ⟨lit (r"—"), e, 0, .falta⟩

/-- The Excel-to-PDF audit pass of comparar_nombres_fuzzy
(unidos2.py:182-190), walking the roster in order. -/
def auditGo (pdfs : List Str) : List (Str × Str) → List NomRow2
  | [] => []
  | (e, en) :: rest =>
    if cubierto pdfs en then auditGo pdfs rest
    else filaFalta e :: auditGo pdfs rest

/-- The function `comparar_nombres_fuzzy` (unidos2.py:157-192): one row per extracted
name, then the audit rows appended. -/
def comparar_nombres_fuzzy (nombres_pdf nombres_excel : List Str) : List NomRow2 :=
  (nombres_pdf.map (filaNombre2 nombres_excel (nombres_excel.map normalizar_texto)))
    ++ auditGo nombres_pdf (nombres_excel.zip (nombres_excel.map normalizar_texto))

end Unidos2

/-- Maximum token-sort similarity of a roster entry's normalized value
against the normalized extracted names (0 when there are none). -/
def maxTok (pdfs : List Str) (en : Str) : Nat :=
  pdfs.foldr (fun p a => max (token_sort_ratio en (normalizar_texto p)) a) 0

theorem cubierto_iff (pdfs : List Str) (en : Str) :
    Unidos2.cubierto pdfs en = false ↔ maxTok pdfs en < UMBRAL_ALTA := by
  induction pdfs with
  | nil => simp [Unidos2.cubierto, maxTok, UMBRAL_ALTA]
  | cons p rest ih =>
    have hcons : maxTok (p :: rest) en
        = max (token_sort_ratio en (normalizar_texto p)) (maxTok rest en) := rfl
    rw [hcons, Unidos2.cubierto, List.any_cons, Bool.or_eq_false_iff]
    rw [Unidos2.cubierto] at ih
    constructor
    · rintro ⟨h1, h2⟩
      have h3 := ih.mp h2
      simp only [decide_eq_false_iff_not, not_le] at h1
      omega
    · intro h
      have h2 : maxTok rest en < UMBRAL_ALTA := by omega
      exact ⟨by simp only [decide_eq_false_iff_not, not_le]; omega, ih.mpr h2⟩

theorem auditGo_filter (pdfs : List Str) (excel : List Str) :
    Unidos2.auditGo pdfs (excel.zip (excel.map normalizar_texto))
      = (excel.filter
          (fun e => decide (maxTok pdfs (normalizar_texto e) < UMBRAL_ALTA))).map
          Unidos2.filaFalta := by
  induction excel with
  | nil => rfl
  | cons e t ih =>
    rw [List.map_cons, List.zip_cons_cons, Unidos2.auditGo, List.filter_cons]
    by_cases hc : Unidos2.cubierto pdfs (normalizar_texto e) = true
    · have hmax : ¬ maxTok pdfs (normalizar_texto e) < UMBRAL_ALTA := by
        intro hlt
        rw [(cubierto_iff pdfs (normalizar_texto e)).mpr hlt] at hc
        cases hc
      rw [if_pos hc, if_neg (by simpa using hmax), ih]
    · have hc' : Unidos2.cubierto pdfs (normalizar_texto e) = false :=
        eq_false_of_ne_true hc
      have hmax := (cubierto_iff pdfs (normalizar_texto e)).mp hc'
      rw [if_neg (by simp [hc']), if_pos (by simpa using hmax), List.map_cons, ih]

/-- C6: the coverage audit appended by comparar_nombres_fuzzy
(unidos2.py:182-190) emits a FALTA-CERTIFICADO gap row for exactly those
roster entries whose maximum token-sort similarity against the normalized
extracted names is strictly below the HIGH threshold `UMBRAL_ALTA` = 90; the
gaps follow the per-record rows in roster (ascending row) order, and the
whole function is a pure map plus a read-only filter, mutating nothing. -/
theorem c6_coverage_audit (pdfs excel : List Str) :
    Unidos2.comparar_nombres_fuzzy pdfs excel
      = pdfs.map (Unidos2.filaNombre2 excel (excel.map normalizar_texto))
        ++ (excel.filter
            (fun e => decide (maxTok pdfs (normalizar_texto e) < UMBRAL_ALTA))).map
            Unidos2.filaFalta := by
  rw [Unidos2.comparar_nombres_fuzzy, auditGo_filter]

/-! Field extraction: the regex cascade for document numbers
(PATRON_CEDULA_ADULTO, PATRON_NUIP_MENOR, PATRON_RUMV_PPT; identical in
unidos2.py:31-33, documentos.py:19-21 and unidos.py:24-26), modeled as
leftmost-first search with per-pattern matchers. -/

/-- Case-insensitive literal match (re.IGNORECASE over the ASCII/Latin-1
letters the labels use): on success return the rest of the text. -/
def matchLitCI : Str → Str → Option Str
  | [], t => some t
  | _ :: _, [] => none
  | p :: ps, c :: cs =>
    if lowerChar p = lowerChar c then matchLitCI ps cs else none

/-- One group of the form `\.[0-9]{3}` (46 is "."): on success return the rest. -/
def matchDdd : Str → Option Str
  | 46 :: a :: b :: c :: rest =>
    if isDigitC a && isDigitC b && isDigitC c then some rest else none
  | _ => none

/-- Maximal run of `\.[0-9]{3}` groups: (count, consumed text, rest).
Fuel `t.length` always suffices since each group consumes four
characters. -/
def dddRunF : Nat → Str → Nat × Str × Str
  | 0, t => (0, [], t)
  | fuel + 1, t =>
    match matchDdd t with
    | some r =>
      let q := dddRunF fuel r
      (q.1 + 1, t.take 4 ++ q.2.1, q.2.2)
    | none => (0, [], t)

/-- Try k leading digits followed by `(?:\.[0-9]{3})*\.[0-9]{3}` at the current
position; the greedy star hands one group back to the mandatory final
group, so a maximal run of m groups matches exactly when 1 ≤ m. -/
def tryK (k : Nat) (t : Str) : Option Str :=
  if (t.take k).length = k ∧ (∀ c ∈ t.take k, isDigitC c = true) then
    if 1 ≤ (dddRunF (t.drop k).length (t.drop k)).1 then
      some (t.take k ++ (dddRunF (t.drop k).length (t.drop k)).2.1)
    else none
  else none

/-- Pattern `[0-9]{1,3}(?:\.[0-9]{3})*\.[0-9]{3}` at the current position: the
greedy `{1,3}` tries three leading digits, then two, then one. -/
def matchNum (t : Str) : Option Str :=
  match tryK 3 t with
  | some g => some g
  | none =>
    match tryK 2 t with
    | some g => some g
    | none => tryK 1 t

/-- The full cedula pattern anchored at the current position: the literal
label, `\s*`, then the dotted number (the capture group). -/
def cedulaAt (t : Str) : Option Str :=
  match matchLitCI (lit (r"Cédula de Ciudadanía:")) t with
  | none => none
  | some r => matchNum (r.dropWhile isSp)

/-- Label followed by `\s+([0-9]+)` (NUIP and RUMV patterns): backtracking
cannot help since whitespace and digits are disjoint, so both quantifiers
are maximal runs. -/
def labelNumAt (label : Str) (t : Str) : Option Str :=
  match matchLitCI label t with
  | none => none
  | some r =>
    if r.takeWhile isSp = [] then none
    else
      if (r.dropWhile isSp).takeWhile isDigitC = [] then none
      else some ((r.dropWhile isSp).takeWhile isDigitC)

/-- Model of `re.search`: try the anchored matcher at every position left to right
(a nonempty-label pattern can never match the empty suffix). -/
def searchFrom (atP : Str → Option Str) : Str → Option Str
  | [] => none
  | t@(_ :: rest) =>
    match atP t with
    | some g => some g
    | none => searchFrom atP rest

def searchCedula : Str → Option Str := searchFrom cedulaAt

def searchNuip : Str → Option Str :=
  searchFrom (labelNumAt (lit (r"Número Único de Identificación Personal")))

def searchRumv : Str → Option Str :=
  searchFrom (labelNumAt (lit (r"número de RUMV")))

/-- First-match-wins over an ordered rule table: the capture of the first
rule whose search succeeds, paired with that rule's subtype tag. -/
def firstMatch : List ((Str → Option Str) × Str) → Str → Option (Str × Str)
  | [], _ => none
  | (f, cat) :: rs, t =>
    match f t with
    | some g => some (g, cat)
    | none => firstMatch rs t

/-- The ordered document rule table (priority: cedula, NUIP, RUMV). -/
def reglasDocumento : List ((Str → Option Str) × Str) :=
  [(searchCedula, lit (r"CEDULA_ADULTO")), (searchNuip, lit (r"NUIP_MENOR")),
    (searchRumv, lit (r"RUMV_PPT"))]

namespace Unidos2

/-- The function `extraer_documento_desde_texto` (unidos2.py:140-152): empty text returns
(None, None); otherwise the three patterns are tried in order and the first
match returns its normalized capture with the subtype tag. -/
def extraer_documento_desde_texto (texto : Str) : Option Str × Option Str :=
  if texto = [] then (none, none)
  else
    match searchCedula texto with
    | some m => (some (normalizar_documento m), some (lit (r"CEDULA_ADULTO")))
    | none =>
      match searchNuip texto with
      | some m => (some (normalizar_documento m), some (lit (r"NUIP_MENOR")))
      | none =>
        match searchRumv texto with
        | some m => (some (normalizar_documento m), some (lit (r"RUMV_PPT")))
        | none => (none, none)

end Unidos2

namespace Documentos

/-- The regex cascade of `extraer_documento_desde_pdf` (documentos.py:54-67)
applied to the already-extracted text (reading the PDF is external I/O; an
unreadable file yields empty text, on which every pattern simply fails). -/
def extraer_documento_cascada (texto : Str) : Option Str × Option Str :=
  match searchCedula texto with
  | some m => (some (normalizar_documento m), some (lit (r"CEDULA_ADULTO")))
  | none =>
    match searchNuip texto with
    | some m => (some (normalizar_documento m), some (lit (r"NUIP_MENOR")))
    | none =>
      match searchRumv texto with
      | some m => (some (normalizar_documento m), some (lit (r"RUMV_PPT")))
      | none => (none, none)

/-- The helper `_procesar_carpeta_pdfs` (documentos.py:86-105) over (file name, text)
pairs: a record goes to the extracted list only when both the number and the
type are present and the number is non-empty (`if numero_doc and tipo`);
otherwise the file name goes to the not-read list and the batch
continues. -/
def procesar_carpeta : List (Str × Str) → List (Str × Str × Str) × List Str
  | [] => ([], [])
  | (name, texto) :: rest =>
    let prev := procesar_carpeta rest
    match extraer_documento_cascada texto with
    | (some num, some tipo) =>
      if num = [] then (prev.1, name :: prev.2)
      else ((num, tipo, name) :: prev.1, prev.2)
    | _ => (prev.1, name :: prev.2)

end Documentos

/-- C8: both document extractors evaluate the pattern rules strictly in
their fixed priority order (cedula, NUIP, RUMV) and return the first match's
normalized capture with that rule's subtype; when no rule matches —
including on an empty text block — they return absence `(none, none)`
rather than failing; and a no-extraction outcome does not abort the batch:
the batch loop files the name under the not-read list and keeps going, every
input accounted for. -/
theorem c8_extraction_first_match :
    (∀ t : Str, Unidos2.extraer_documento_desde_texto t
      = (match (if t = [] then none else firstMatch reglasDocumento t) with
         | some (g, cat) => (some (normalizar_documento g), some cat)
         | none => (none, none)))
    ∧ (∀ t : Str, Documentos.extraer_documento_cascada t
      = (match firstMatch reglasDocumento t with
         | some (g, cat) => (some (Documentos.normalizar_documento g), some cat)
         | none => (none, none)))
    ∧ Unidos2.extraer_documento_desde_texto [] = (none, none)
    ∧ (∀ items, (Documentos.procesar_carpeta items).1.length
        + (Documentos.procesar_carpeta items).2.length = items.length)
    ∧ (∀ name texto rest,
        Documentos.extraer_documento_cascada texto = (none, none) →
        Documentos.procesar_carpeta ((name, texto) :: rest)
          = ((Documentos.procesar_carpeta rest).1,
              name :: (Documentos.procesar_carpeta rest).2)) := by
  refine ⟨?_, ?_, rfl, ?_, ?_⟩
  · intro t
    by_cases ht : t = []
    · simp [ht, Unidos2.extraer_documento_desde_texto]
    · rw [Unidos2.extraer_documento_desde_texto, if_neg ht, if_neg ht]
      rcases hc : searchCedula t with _ | g1
      · rcases hn : searchNuip t with _ | g2
        · rcases hr : searchRumv t with _ | g3 <;>
            simp [firstMatch, reglasDocumento, hc, hn, hr]
        · simp [firstMatch, reglasDocumento, hc, hn]
      · simp [firstMatch, reglasDocumento, hc]
  · intro t
    rw [Documentos.extraer_documento_cascada]
    rcases hc : searchCedula t with _ | g1
    · rcases hn : searchNuip t with _ | g2
      · rcases hr : searchRumv t with _ | g3 <;>
          simp [firstMatch, reglasDocumento, hc, hn, hr]
      · simp [firstMatch, reglasDocumento, hc, hn]
    · simp [firstMatch, reglasDocumento, hc]
  · intro items
    induction items with
    | nil => rfl
    | cons it rest ih =>
      obtain ⟨name, texto⟩ := it
      rw [Documentos.procesar_carpeta]
      rcases he : Documentos.extraer_documento_cascada texto with ⟨n, tp⟩
      cases n with
      | none => simp; omega
      | some num =>
        cases tp with
        | none => simp; omega
        | some tipo =>
          by_cases hnum : num = []
          · simp [hnum]; omega
          · simp [hnum]; omega
  · intro name texto rest h
    rw [Documentos.procesar_carpeta, h]

/-- Witness for C8: a text matching no pattern is filed under the not-read
list and processing would continue. -/
theorem c8_witness :
    Documentos.procesar_carpeta [(lit (r"x.pdf"), lit (r"hola"))]
      = ((Documentos.procesar_carpeta []).1,
          lit (r"x.pdf") :: (Documentos.procesar_carpeta []).2) :=
  c8_extraction_first_match.2.2.2.2 (lit (r"x.pdf")) (lit (r"hola")) [] (by decide)
